import Mathlib

/-!
Verification development for the feagi-core synaptic propagation kernel and
the visible Python helpers.

The propagation engine (`SynapticPropagationEngine` with `build_index`,
`set_neuron_mapping`, `propagate`, `stats`) lives in the repository's native
extension; the Python tree only calls it through `test_integration.py`.  Its
behaviour is therefore modelled from the specification.  The helpers
`inject_to_fcl` (brain_functions.py) and `image_read_by_block`
(PUs/IPU_vision.py) are embedded directly from the Python source.
-/

namespace Feagi

/-- Modelled from the spec: the error taxonomy of the kernel, which is not
under src/ (only its Python caller is).  `DimensionMismatch` for build-time
sequences of unequal length, `IndexNotBuilt` for `propagate` before any
successful `build`. -/
inductive EngineError where
  | DimensionMismatch
  | IndexNotBuilt
deriving DecidableEq, Repr

/-- Modelled from the spec: a synapse's kind, `{Excitatory, Inhibitory}`,
which determines the sign of its contribution. -/
inductive SynKind where
  | excitatory
  | inhibitory
deriving DecidableEq, Repr

/-- Modelled from the spec: one row of the Synapse Table,
`(source, target, weight, conductance, kind, valid)`; weight and conductance
are bounded 0-255 factors. -/
structure Synapse where
  source : Nat
  target : Nat
  weight : Nat
  conductance : Nat
  kind : SynKind
  valid : Bool
deriving DecidableEq, Repr

/-- Modelled from the spec: the sign determined by a synapse's kind,
excitatory positive and inhibitory negative. -/
def signOf : SynKind → ℚ
  | .excitatory => 1
  | .inhibitory => -1

/-- Modelled from the spec: the signed magnitude of one synapse,
`sign(kind) * weight * conductance / 255`; exact rational arithmetic stands
in for the extension's floating point. -/
def magnitude (s : Synapse) : ℚ :=
  signOf s.kind * (s.weight : ℚ) * (s.conductance : ℚ) / 255

/-- Modelled from the spec: the Synapse Index owns the full Synapse Table;
the synapses reachable from a source are exactly the table rows whose
`source` field equals that id, in table order. -/
structure Index where
  table : List Synapse
deriving DecidableEq, Repr

/-- Modelled from the spec: the ordered list of outgoing synapses of a
source neuron, i.e. the table rows with that `source`, in table order. -/
def Index.outgoing (idx : Index) (src : Nat) : List Synapse :=
  idx.table.filter (fun s => s.source == src)

/-- Modelled from the spec: result granularity is a construction-time
configuration option, per cortical area or per neuron. -/
inductive Granularity where
  | perArea
  | perNeuron
deriving DecidableEq, Repr

/-- Modelled from the spec: resolve a synapse's target to the key the result
is aggregated under: the target itself in per-neuron mode, its cortical area
via the Neuron-Area Map in per-area mode (`none` when unmapped). -/
def keyOf : Granularity → (Nat → Option Nat) → Nat → Option Nat
  | .perNeuron, _, t => some t
  | .perArea, m, t => m t

/-- Modelled from the spec: the contribution of one synapse to one result
key: its signed magnitude when the synapse is valid and its target resolves
to that key, zero otherwise (invalid synapses are skipped; unmapped targets
are dropped from area-level aggregation). -/
def contribution (g : Granularity) (m : Nat → Option Nat) (key : Nat)
    (s : Synapse) : ℚ :=
  if s.valid = true ∧ keyOf g m s.target = some key then magnitude s else 0

/-- Modelled from the spec: the propagation result.  Duplicates in the fired
input are deduplicated; for each distinct fired id its outgoing synapses are
looked up in the Index (ids absent from the Index contribute nothing);
contributions accumulate additively into the result keyed by area or
neuron. -/
def propagateResult (idx : Index) (g : Granularity) (m : Nat → Option Nat)
    (fired : List Nat) : Nat → ℚ :=
  fun key =>
    (fired.dedup.map
      (fun src => ((idx.outgoing src).map (contribution g m key)).sum)).sum

/-- Modelled from the spec: the number of valid synapses actually traversed
by one `propagate` call, excluding skipped-invalid ones. -/
def visitedCount (idx : Index) (fired : List Nat) : Nat :=
  (fired.dedup.map
    (fun src => ((idx.outgoing src).filter (fun s => s.valid)).length)).sum

/-- Modelled from the spec: single-pass assembly of the Synapse Table from
the six columnar input sequences; row `i` describes one synapse. -/
def mkTable : List Nat → List Nat → List Nat → List Nat → List SynKind →
    List Bool → List Synapse
  | s :: ss, t :: ts, w :: ws, c :: cs, k :: ks, v :: vs =>
      ⟨s, t, w, c, k, v⟩ :: mkTable ss ts ws cs ks vs
  | _, _, _, _, _, _ => []

/-- Modelled from the spec: the precondition of `build` — all six input
sequences have equal length `N`. -/
def sameLengths (s t w c : List Nat) (k : List SynKind) (v : List Bool) :
    Prop :=
  s.length = t.length ∧ t.length = w.length ∧ w.length = c.length ∧
    c.length = k.length ∧ k.length = v.length

instance (s t w c : List Nat) (k : List SynKind) (v : List Bool) :
    Decidable (sameLengths s t w c k v) := by
  unfold sameLengths; infer_instance

/-- Modelled from the spec: `build` fails with `DimensionMismatch` when the
six sequences differ in length, and otherwise yields the Index over the
assembled table; `N = 0` is accepted and yields an empty index. -/
def build (s t w c : List Nat) (k : List SynKind) (v : List Bool) :
    Except EngineError Index :=
  if sameLengths s t w c k v then .ok ⟨mkTable s t w c k v⟩
  else .error .DimensionMismatch

/-- Modelled from the spec: in-place flip of the `valid` flag of table row
`i`, the shape of the table untouched. -/
def setValidTable : List Synapse → Nat → Bool → List Synapse
  | [], _, _ => []
  | s :: rest, 0, b => { s with valid := b } :: rest
  | s :: rest, i + 1, b => s :: setValidTable rest i b

/-- Modelled from the spec: re-validating (or pruning) a synapse flips a
flag in the underlying Synapse Table without rebuilding the Index. -/
def Index.setValid (idx : Index) (i : Nat) (b : Bool) : Index :=
  ⟨setValidTable idx.table i b⟩

/-- Modelled from the spec: the propagation engine's state — an optional
built Index, the Neuron-Area Map, the construction-time granularity, and
the two process-wide statistics counters. -/
structure Engine where
  index : Option Index
  mapping : Nat → Option Nat
  granularity : Granularity
  total_propagations : Nat
  total_synapses_visited : Nat

/-- Modelled from the spec: a fresh engine with no Index built, an empty
mapping and zeroed counters. -/
def Engine.new (g : Granularity) : Engine :=
  ⟨none, fun _ => none, g, 0, 0⟩

/-- Modelled from the spec: `build_index` builds the Index from the six
columnar sequences; on `DimensionMismatch` no new Index is constructed and
the previous engine value is untouched. -/
def Engine.build_index (e : Engine) (s t w c : List Nat) (k : List SynKind)
    (v : List Bool) : Except EngineError Engine :=
  match build s t w c k v with
  | .error err => .error err
  | .ok idx => .ok { e with index := some idx }

/-- Modelled from the spec: `set_neuron_mapping` replaces the Neuron-Area
Map wholesale, independently of the Index. -/
def Engine.set_neuron_mapping (e : Engine) (m : Nat → Option Nat) : Engine :=
  { e with mapping := m }

/-- Modelled from the spec: the hot-path operation.  Fails with
`IndexNotBuilt` before any successful build; otherwise returns the fresh
aggregated result and bumps `total_propagations` by one and
`total_synapses_visited` by the valid synapses traversed. -/
def Engine.propagate (e : Engine) (fired : List Nat) :
    Except EngineError ((Nat → ℚ) × Engine) :=
  match e.index with
  | none => .error .IndexNotBuilt
  | some idx =>
      .ok (propagateResult idx e.granularity e.mapping fired,
        { e with
            total_propagations := e.total_propagations + 1,
            total_synapses_visited :=
              e.total_synapses_visited + visitedCount idx fired })

/-- Modelled from the spec: `stats()` exposes the pair of counters. -/
def Engine.stats (e : Engine) : Nat × Nat :=
  (e.total_propagations, e.total_synapses_visited)

/-- Modelled from the spec: a sequence of `propagate` calls folded over the
engine state; a failing call leaves the engine as it was. -/
def runCalls (e : Engine) (fs : List (List Nat)) : Engine :=
  fs.foldl
    (fun acc fired =>
      match acc.propagate fired with
      | .ok (_, e') => e'
      | .error _ => acc) e

/-- The value of a propagate outcome at one key: `none` when the call
failed, `some (r key)` when it returned result `r`. -/
def resultOf (x : Except EngineError ((Nat → ℚ) × Engine)) (key : Nat) :
    Option ℚ :=
  match x with
  | .ok (r, _) => some (r key)
  | .error _ => none

/-! ### The literal end-to-end scenario of `test_integration.py` -/

/-- The six source neurons of the integration test. -/
def scenarioSources : List Nat := [1, 1, 1, 2, 2, 3]

/-- The six target neurons of the integration test. -/
def scenarioTargets : List Nat := [10, 11, 12, 10, 13, 14]

/-- The six weights of the integration test. -/
def scenarioWeights : List Nat := [255, 128, 200, 255, 100, 150]

/-- The six conductances of the integration test. -/
def scenarioConductances : List Nat := [255, 255, 200, 255, 255, 255]

/-- The six kinds of the integration test (`0=excitatory, 1=inhibitory`). -/
def scenarioKinds : List SynKind :=
  [.excitatory, .inhibitory, .excitatory, .excitatory, .excitatory,
   .excitatory]

/-- The all-true validity mask of the integration test. -/
def scenarioValid : List Bool := [true, true, true, true, true, true]

/-- The neuron-to-cortical-area mapping of the integration test:
`{10:1, 11:1, 12:1, 13:2, 14:2}`. -/
def scenarioMap : Nat → Option Nat := fun n =>
  if n = 10 then some 1
  else if n = 11 then some 1
  else if n = 12 then some 1
  else if n = 13 then some 2
  else if n = 14 then some 2
  else none

/-- The Index the integration test's `build_index` call constructs. -/
def scenarioIndex : Index :=
  ⟨mkTable scenarioSources scenarioTargets scenarioWeights
    scenarioConductances scenarioKinds scenarioValid⟩

/-- The integration-test engine at a given granularity: created fresh, the
index built from the six columns, the mapping set. -/
def scenarioEngine (g : Granularity) : Engine :=
  match (Engine.new g).build_index scenarioSources scenarioTargets
      scenarioWeights scenarioConductances scenarioKinds scenarioValid with
  | .ok e => e.set_neuron_mapping scenarioMap
  | .error _ => Engine.new g

/-! ### `Brain.inject_to_fcl` from brain_functions.py -/

/-- `Queue.get` on the multiprocessing queue of fire-control lists: removes
and returns the front element, `none` when the queue is empty (the Python
call would block). -/
def queueGet {α : Type} (q : List (List α)) :
    Option (List α × List (List α)) :=
  match q with
  | [] => none
  | front :: rest => some (front, rest)

/-- `Queue.put`: enqueues a list at the back of the queue. -/
def queuePut {α : Type} (q : List (List α)) (l : List α) : List (List α) :=
  q ++ [l]

/-- `Brain.inject_to_fcl`: reads the FCL from the queue, appends each item
of `fire_list` to it in order, and puts the updated list back. -/
def inject_to_fcl {α : Type} (fire_list : List α) (fcl_queue : List (List α)) :
    Option (List (List α)) :=
  match queueGet fcl_queue with
  | none => none
  | some (flc, rest) =>
      some (queuePut rest (fire_list.foldl (fun acc item => acc ++ [item]) flc))

/-! ### `IPU_vision.image_read_by_block` from PUs/IPU_vision.py -/

/-- `np.shape(image)[0]`: the number of rows. -/
def shape0 (image : List (List Int)) : Nat := image.length

/-- `np.shape(image)[1]`: the row length of the rectangular array. -/
def shape1 (image : List (List Int)) : Nat := (image.headD []).length

/-- `image[i, j]` as a fallible read: `none` models an out-of-bounds numpy
access (negative wrap-around or IndexError), `some` the pixel value. -/
def pixelRead (image : List (List Int)) (i j : Int) : Option Int :=
  if 0 ≤ i ∧ 0 ≤ j then
    (image.get? i.toNat).bind (fun row => row.get? j.toNat)
  else none

/-- One cell of `kernel_values`: the zero initialisation is overwritten by
`image[x-scan_length+a, y-scan_length+b]` exactly when the source's bounds
guard holds. -/
def cellRead (image : List (List Int)) (kernel_size : Nat) (x y : Int)
    (a b : Nat) : Option Int :=
  if 0 ≤ x - (kernel_size / 2 : Nat) + a ∧ 0 ≤ y - (kernel_size / 2 : Nat) + b ∧
      x - (kernel_size / 2 : Nat) + a < (shape0 image : Int) ∧
      y - (kernel_size / 2 : Nat) + b < (shape1 image : Int) then
    pixelRead image (x - (kernel_size / 2 : Nat) + a)
      (y - (kernel_size / 2 : Nat) + b)
  else some 0

/-- Collects `f` over a list, failing when any element fails. -/
def optionMapList {α β : Type} (f : α → Option β) : List α → Option (List β)
  | [] => some []
  | a :: rest =>
      match f a, optionMapList f rest with
      | some b, some bs => some (b :: bs)
      | _, _ => none

/-- `IPU_vision.Filter.image_read_by_block`: `none` for an even kernel size
(the source prints an error and returns `None`); otherwise the
`kernel_size × kernel_size` array whose cells are filled from the image
under the bounds guard and left zero outside it. -/
def image_read_by_block (image : List (List Int)) (kernel_size : Nat)
    (x y : Int) : Option (List (List Int)) :=
  if kernel_size % 2 = 0 then none
  else
    optionMapList
      (fun a => optionMapList (fun b => cellRead image kernel_size x y a b)
        (List.range kernel_size))
      (List.range kernel_size)

/-- The in-bounds pixel of the image at integer coordinates, with default
zero: the value the Python read yields once the guard holds. -/
def pixelAt (image : List (List Int)) (i j : Int) : Int :=
  (((image.get? i.toNat).getD []).get? j.toNat).getD 0

/-! ### Helper lemmas -/

theorem sum_map_add {M α : Type} [AddCommMonoid M] (l : List α)
    (f g : α → M) :
    (l.map (fun x => f x + g x)).sum = (l.map f).sum + (l.map g).sum := by
  induction l with
  | nil => simp
  | cons a rest ih =>
      simp only [List.map_cons, List.sum_cons, ih]
      exact add_add_add_comm _ _ _ _

theorem sum_map_ite_eq {M : Type} [AddCommMonoid M] (d : List Nat)
    (hd : d.Nodup) (c : Nat) (v : M) :
    (d.map (fun x => if x = c then v else 0)).sum =
      if c ∈ d then v else 0 := by
  induction d with
  | nil => simp
  | cons a rest ih =>
      rcases List.nodup_cons.mp hd with ⟨ha, hrest⟩
      by_cases hac : a = c
      · subst hac
        have hnc : a ∉ rest := ha
        simp [ih hrest, hnc]
      · simp only [List.map_cons, List.sum_cons, if_neg hac, ih hrest,
          List.mem_cons]
        have : (c = a ∨ c ∈ rest) ↔ c ∈ rest := by
          constructor
          · rintro (h | h)
            · exact absurd h.symm hac
            · exact h
          · exact Or.inr
        rw [zero_add]
        by_cases hcr : c ∈ rest
        · rw [if_pos hcr, if_pos (Or.inr hcr)]
        · rw [if_neg hcr, if_neg (by rw [this]; exact hcr)]

theorem flat_sum {M : Type} [AddCommMonoid M] (d : List Nat) (hd : d.Nodup)
    (table : List Synapse) (f : Synapse → M) :
    (d.map
      (fun x => ((table.filter (fun s => s.source == x)).map f).sum)).sum =
      (table.map (fun s => if s.source ∈ d then f s else 0)).sum := by
  induction table with
  | nil => simp
  | cons s rest ih =>
      have hsplit : (fun x : Nat =>
          (((s :: rest).filter (fun t => t.source == x)).map f).sum) =
          (fun x : Nat => (if x = s.source then f s else 0) +
            ((rest.filter (fun t => t.source == x)).map f).sum) := by
        funext x
        by_cases h : s.source = x
        · simp [List.filter_cons, h, beq_iff_eq]
        · have h' : ¬x = s.source := fun hx => h hx.symm
          simp [List.filter_cons, h, h', beq_iff_eq]
      rw [hsplit, sum_map_add, sum_map_ite_eq d hd, ih]
      simp

theorem propagateResult_flat (idx : Index) (g : Granularity)
    (m : Nat → Option Nat) (fired : List Nat) (key : Nat) :
    propagateResult idx g m fired key =
      (idx.table.map
        (fun s => if s.source ∈ fired then contribution g m key s else 0)).sum
    := by
  unfold propagateResult Index.outgoing
  rw [flat_sum fired.dedup fired.nodup_dedup idx.table]
  simp [List.mem_dedup]

theorem length_filter_eq_sum {α : Type} (p : α → Bool) (l : List α) :
    (l.filter p).length =
      (l.map (fun a => if p a = true then 1 else 0)).sum := by
  induction l with
  | nil => simp
  | cons a rest ih =>
      by_cases h : p a = true <;>
        simp [List.filter_cons, h, ih, Nat.add_comm]

theorem visitedCount_flat (idx : Index) (fired : List Nat) :
    visitedCount idx fired =
      (idx.table.map
        (fun s => if s.source ∈ fired ∧ s.valid = true then 1 else 0)).sum
    := by
  unfold visitedCount Index.outgoing
  have h1 : (fun src : Nat =>
      ((idx.table.filter (fun s => s.source == src)).filter
        (fun s => s.valid)).length) =
      (fun src : Nat =>
        ((idx.table.filter (fun s => s.source == src)).map
          (fun s => if s.valid = true then 1 else 0)).sum) := by
    funext src
    exact length_filter_eq_sum _ _
  rw [h1, flat_sum fired.dedup fired.nodup_dedup idx.table]
  simp only [List.mem_dedup]
  have h2 : (fun s : Synapse =>
      if s.source ∈ fired then if s.valid = true then 1 else 0 else 0) =
      (fun s : Synapse =>
        if s.source ∈ fired ∧ s.valid = true then 1 else 0) := by
    funext s
    by_cases hs : s.source ∈ fired <;> by_cases hv : s.valid = true <;>
      simp [hs, hv]
  rw [h2]

theorem sum_map_filter {M α : Type} [AddCommMonoid M] (p : α → Bool)
    (l : List α) (f : α → M) :
    ((l.filter p).map f).sum =
      (l.map (fun a => if p a = true then f a else 0)).sum := by
  induction l with
  | nil => simp
  | cons a rest ih =>
      by_cases h : p a = true <;> simp [List.filter_cons, h, ih]

theorem propagateResult_congr_mem (idx : Index) (g : Granularity)
    (m : Nat → Option Nat) {xs ys : List Nat}
    (hmem : ∀ n, n ∈ xs ↔ n ∈ ys) :
    propagateResult idx g m xs = propagateResult idx g m ys := by
  funext key
  rw [propagateResult_flat, propagateResult_flat]
  have hfun : (fun s : Synapse =>
      if s.source ∈ xs then contribution g m key s else 0) =
      (fun s : Synapse =>
        if s.source ∈ ys then contribution g m key s else 0) := by
    funext s
    by_cases h : s.source ∈ xs
    · rw [if_pos h, if_pos ((hmem _).mp h)]
    · rw [if_neg h, if_neg (fun hy => h ((hmem _).mpr hy))]
  rw [hfun]

theorem visitedCount_congr_mem (idx : Index) {xs ys : List Nat}
    (hmem : ∀ n, n ∈ xs ↔ n ∈ ys) :
    visitedCount idx xs = visitedCount idx ys := by
  rw [visitedCount_flat, visitedCount_flat]
  have hfun : (fun s : Synapse =>
      if s.source ∈ xs ∧ s.valid = true then 1 else 0) =
      (fun s : Synapse =>
        if s.source ∈ ys ∧ s.valid = true then 1 else 0) := by
    funext s
    by_cases h : s.source ∈ xs
    · by_cases hv : s.valid = true <;>
        simp [h, (hmem _).mp h, hv]
    · have h' : s.source ∉ ys := fun hy => h ((hmem _).mpr hy)
      simp [h, h']
  rw [hfun]

theorem sum_map_setValidTable {M : Type} [AddCommMonoid M] :
    ∀ (table : List Synapse) (i : Nat) (h : i < table.length) (b : Bool)
      (f : Synapse → M),
    ((setValidTable table i b).map f).sum + f (table.get ⟨i, h⟩) =
      (table.map f).sum + f { table.get ⟨i, h⟩ with valid := b } := by
  intro table
  induction table with
  | nil => intro i h; exact absurd h (by simp)
  | cons s rest ih =>
      intro i h b f
      cases i with
      | zero =>
          have hget : (s :: rest).get ⟨0, h⟩ = s := rfl
          simp only [setValidTable, List.map_cons, List.sum_cons, hget]
          abel
      | succ i =>
          have h' : i < rest.length := Nat.lt_of_succ_lt_succ (by simpa using h)
          simp only [setValidTable, List.map_cons, List.sum_cons,
            List.get_cons_succ]
          rw [add_assoc, add_assoc, ih i h' b f]

theorem mkTable_length : ∀ (s t w c : List Nat) (k : List SynKind)
    (v : List Bool), sameLengths s t w c k v →
    (mkTable s t w c k v).length = s.length := by
  intro s
  induction s with
  | nil => intro t w c k v _; simp [mkTable]
  | cons a as ih =>
      intro t w c k v h
      obtain ⟨h1, h2, h3, h4, h5⟩ := h
      cases t with
      | nil => simp at h1
      | cons b ts =>
          cases w with
          | nil => simp at h2
          | cons d ws =>
              cases c with
              | nil => simp at h3
              | cons e cs =>
                  cases k with
                  | nil => simp at h4
                  | cons f ks =>
                      cases v with
                      | nil => simp at h5
                      | cons g vs =>
                          simp only [mkTable, List.length_cons]
                          rw [ih ts ws cs ks vs
                            ⟨by simpa using h1, by simpa using h2,
                             by simpa using h3, by simpa using h4,
                             by simpa using h5⟩]

theorem runCalls_stats : ∀ (fs : List (List Nat)) (e : Engine) (idx : Index),
    e.index = some idx →
    (runCalls e fs).index = some idx ∧
    (runCalls e fs).total_propagations =
      e.total_propagations + fs.length ∧
    (runCalls e fs).total_synapses_visited =
      e.total_synapses_visited + (fs.map (visitedCount idx)).sum := by
  intro fs
  induction fs with
  | nil => intro e idx h; simpa [runCalls] using h
  | cons f rest ih =>
      intro e idx h
      have hprop : e.propagate f =
          .ok (propagateResult idx e.granularity e.mapping f,
            { e with
                total_propagations := e.total_propagations + 1,
                total_synapses_visited :=
                  e.total_synapses_visited + visitedCount idx f }) := by
        unfold Engine.propagate
        rw [h]
      have hrun : runCalls e (f :: rest) =
          runCalls
            { e with
                total_propagations := e.total_propagations + 1,
                total_synapses_visited :=
                  e.total_synapses_visited + visitedCount idx f } rest := by
        unfold runCalls
        rw [List.foldl_cons, hprop]
      rw [hrun]
      obtain ⟨hi, hp, hs⟩ := ih
        { e with
            total_propagations := e.total_propagations + 1,
            total_synapses_visited :=
              e.total_synapses_visited + visitedCount idx f } idx h
      refine ⟨hi, ?_, ?_⟩
      · rw [hp]; simp; omega
      · rw [hs]; simp; omega

theorem runCalls_append (e : Engine) (p s : List (List Nat)) :
    runCalls e (p ++ s) = runCalls (runCalls e p) s := by
  unfold runCalls
  rw [List.foldl_append]

theorem foldl_append_eq {α : Type} :
    ∀ (fire_list acc : List α),
    fire_list.foldl (fun l item => l ++ [item]) acc = acc ++ fire_list := by
  intro fire_list
  induction fire_list with
  | nil => intro acc; simp
  | cons a rest ih =>
      intro acc
      rw [List.foldl_cons, ih, List.append_assoc]
      simp

theorem optionMapList_eq_map {α β : Type} (f : α → Option β) (g : α → β) :
    ∀ (l : List α), (∀ a ∈ l, f a = some (g a)) →
    optionMapList f l = some (l.map g) := by
  intro l
  induction l with
  | nil => intro _; simp [optionMapList]
  | cons a rest ih =>
      intro h
      have ha : f a = some (g a) := h a (List.mem_cons_self a rest)
      have hrest : optionMapList f rest = some (rest.map g) :=
        ih (fun x hx => h x (List.mem_cons_of_mem a hx))
      simp [optionMapList, ha, hrest]

theorem propagate_mem_congr (e : Engine) (xs ys : List Nat)
    (hmem : ∀ n, n ∈ xs ↔ n ∈ ys) :
    e.propagate xs = e.propagate ys := by
  obtain ⟨oidx, m, g, tp, tv⟩ := e
  cases oidx with
  | none => rfl
  | some idx =>
      simp only [Engine.propagate]
      rw [propagateResult_congr_mem idx g m hmem,
        visitedCount_congr_mem idx hmem]

theorem scenarioEngine_eq (g : Granularity) :
    scenarioEngine g = ⟨some scenarioIndex, scenarioMap, g, 0, 0⟩ := by
  unfold scenarioEngine Engine.build_index build
  rw [if_pos (by decide : sameLengths scenarioSources scenarioTargets
    scenarioWeights scenarioConductances scenarioKinds scenarioValid)]
  rfl

theorem shape1_eq_cols (image : List (List Int)) (cols : Nat)
    (hrect : ∀ row ∈ image, row.length = cols) (hne : image ≠ []) :
    shape1 image = cols := by
  cases image with
  | nil => exact absurd rfl hne
  | cons hd tl => exact hrect hd (List.mem_cons_self hd tl)

theorem pixelRead_in_bounds (image : List (List Int)) (cols : Nat)
    (hrect : ∀ row ∈ image, row.length = cols) (i j : Int)
    (hi0 : 0 ≤ i) (hj0 : 0 ≤ j) (hi : i < (image.length : Int))
    (hj : j < (cols : Int)) :
    pixelRead image i j = some (pixelAt image i j) := by
  unfold pixelRead pixelAt
  have hiN : i.toNat < image.length := by omega
  have hjN : j.toNat < (image.get ⟨i.toNat, hiN⟩).length := by
    rw [hrect _ (image.get_mem _ _)]
    omega
  rw [if_pos ⟨hi0, hj0⟩, List.get?_eq_get hiN]
  simp only [Option.some_bind, Option.getD_some]
  rw [List.get?_eq_get hjN]
  simp

theorem cellRead_eq (image : List (List Int)) (cols kernel_size : Nat)
    (x y : Int) (a b : Nat)
    (hrect : ∀ row ∈ image, row.length = cols) :
    cellRead image kernel_size x y a b =
      some (if 0 ≤ x - (kernel_size / 2 : Nat) + a ∧
          0 ≤ y - (kernel_size / 2 : Nat) + b ∧
          x - (kernel_size / 2 : Nat) + a < (image.length : Int) ∧
          y - (kernel_size / 2 : Nat) + b < (cols : Int)
        then pixelAt image (x - (kernel_size / 2 : Nat) + a)
          (y - (kernel_size / 2 : Nat) + b)
        else 0) := by
  unfold cellRead
  by_cases hg : 0 ≤ x - (kernel_size / 2 : Nat) + a ∧
      0 ≤ y - (kernel_size / 2 : Nat) + b ∧
      x - (kernel_size / 2 : Nat) + a < (shape0 image : Int) ∧
      y - (kernel_size / 2 : Nat) + b < (shape1 image : Int)
  · obtain ⟨h1, h2, h3, h4⟩ := hg
    have hne : image ≠ [] := by
      intro he
      subst he
      unfold shape0 at h3
      simp at h3
      omega
    have hcols : shape1 image = cols := shape1_eq_cols image cols hrect hne
    have h3' : x - (kernel_size / 2 : Nat) + a < (image.length : Int) := h3
    have h4' : y - (kernel_size / 2 : Nat) + b < (cols : Int) := by
      rw [← hcols]
      exact h4
    rw [if_pos ⟨h1, h2, h3, h4⟩, if_pos ⟨h1, h2, h3', h4'⟩]
    exact pixelRead_in_bounds image cols hrect _ _ h1 h2 h3' h4'
  · rw [if_neg hg]
    have hgr : ¬(0 ≤ x - (kernel_size / 2 : Nat) + a ∧
        0 ≤ y - (kernel_size / 2 : Nat) + b ∧
        x - (kernel_size / 2 : Nat) + a < (image.length : Int) ∧
        y - (kernel_size / 2 : Nat) + b < (cols : Int)) := by
      rintro ⟨h1, h2, h3, h4⟩
      apply hg
      have hne : image ≠ [] := by
        intro he
        subst he
        simp at h3
        omega
      have hcols : shape1 image = cols := shape1_eq_cols image cols hrect hne
      refine ⟨h1, h2, h3, ?_⟩
      rw [hcols]
      exact h4
    rw [if_neg hgr]

theorem propagateResult_table_flat (table : List Synapse) (g : Granularity)
    (m : Nat → Option Nat) (fired : List Nat) (key : Nat) :
    propagateResult ⟨table⟩ g m fired key =
      (table.map
        (fun s => if s.source ∈ fired then contribution g m key s else 0)).sum
    :=
  propagateResult_flat ⟨table⟩ g m fired key

/-! ### Claim theorems -/

/-- C1: for the literal end-to-end scenario of the integration test — the
six synapses, the mapping `{10:1, 11:1, 12:1, 13:2, 14:2}` and fired set
`{1, 2}` — neuron 14 receives zero contribution, area 1 receives the summed
signed contributions of synapses 1→10, 1→11, 1→12 and 2→10, area 2 receives
only the contribution of 2→13, and in per-neuron mode neuron 10 receives
the sum of the two additive contributions from source 1 and source 2. -/
theorem C1_end_to_end_scenario :
    resultOf ((scenarioEngine .perNeuron).propagate [1, 2]) 14 = some 0 ∧
    resultOf ((scenarioEngine .perArea).propagate [1, 2]) 1 =
      some (magnitude ⟨1, 10, 255, 255, .excitatory, true⟩ +
            magnitude ⟨1, 11, 128, 255, .inhibitory, true⟩ +
            magnitude ⟨1, 12, 200, 200, .excitatory, true⟩ +
            magnitude ⟨2, 10, 255, 255, .excitatory, true⟩) ∧
    resultOf ((scenarioEngine .perArea).propagate [1, 2]) 2 =
      some (magnitude ⟨2, 13, 100, 255, .excitatory, true⟩) ∧
    resultOf ((scenarioEngine .perNeuron).propagate [1, 2]) 10 =
      some (magnitude ⟨1, 10, 255, 255, .excitatory, true⟩ +
            magnitude ⟨2, 10, 255, 255, .excitatory, true⟩) := by
  have hd : ([1, 2] : List Nat).dedup = [1, 2] := by decide
  refine ⟨?_, ?_, ?_, ?_⟩ <;>
    · rw [scenarioEngine_eq]
      norm_num [Engine.propagate, resultOf, propagateResult, Index.outgoing,
        scenarioIndex, mkTable, scenarioSources, scenarioTargets,
        scenarioWeights, scenarioConductances, scenarioKinds, scenarioValid,
        contribution, keyOf, magnitude, signOf, scenarioMap, hd,
        List.filter_cons]

/-- C2: every valid synapse traversed by `propagate` contributes exactly
`sign(kind) * weight * conductance / 255` — positive when excitatory,
negative when inhibitory — and the result value at each key is the additive
sum of all such contributions targeting that key. -/
theorem C2_contribution_formula (e : Engine) (idx : Index)
    (fired : List Nat) (r : Nat → ℚ) (e' : Engine)
    (hidx : e.index = some idx)
    (hok : e.propagate fired = .ok (r, e')) :
    ∀ key, r key =
      (idx.table.map (fun s =>
        if s.source ∈ fired ∧ s.valid = true ∧
            keyOf e.granularity e.mapping s.target = some key
        then signOf s.kind * (s.weight : ℚ) * (s.conductance : ℚ) / 255
        else 0)).sum := by
  intro key
  have hr : r = propagateResult idx e.granularity e.mapping fired := by
    unfold Engine.propagate at hok
    rw [hidx] at hok
    exact ((Prod.mk.injEq _ _ _ _).mp (Except.ok.inj hok)).1.symm
  have hfun : (fun s : Synapse =>
      if s.source ∈ fired then contribution e.granularity e.mapping key s
      else 0) =
      (fun s : Synapse =>
        if s.source ∈ fired ∧ s.valid = true ∧
            keyOf e.granularity e.mapping s.target = some key
        then signOf s.kind * (s.weight : ℚ) * (s.conductance : ℚ) / 255
        else 0) := by
    funext s
    unfold contribution magnitude
    by_cases h1 : s.source ∈ fired
    · by_cases h2 : s.valid = true ∧
          keyOf e.granularity e.mapping s.target = some key
      · simp [h1, h2.1, h2.2]
      · simp [h1, h2]
    · simp [h1]
  rw [hr, propagateResult_flat, hfun]

/-- C2 witness: the contribution formula evaluated on the integration-test
engine at area key 1. -/
theorem C2_contribution_formula_witness :
    (scenarioEngine .perArea).index = some scenarioIndex ∧
    ∃ r e', (scenarioEngine .perArea).propagate [1, 2] = .ok (r, e') ∧
      r 1 = (scenarioIndex.table.map (fun s =>
        if s.source ∈ [1, 2] ∧ s.valid = true ∧
            keyOf (scenarioEngine .perArea).granularity
              (scenarioEngine .perArea).mapping s.target = some 1
        then signOf s.kind * (s.weight : ℚ) * (s.conductance : ℚ) / 255
        else 0)).sum := by
  have h1 : (scenarioEngine .perArea).index = some scenarioIndex := by
    rw [scenarioEngine_eq]
  have h2 : (scenarioEngine .perArea).propagate [1, 2] =
      .ok (propagateResult scenarioIndex .perArea scenarioMap [1, 2],
        ⟨some scenarioIndex, scenarioMap, .perArea, 1,
          visitedCount scenarioIndex [1, 2]⟩) := by
    rw [scenarioEngine_eq]
    rfl
  exact ⟨h1, _, _, h2,
    C2_contribution_formula (scenarioEngine .perArea) scenarioIndex
      [1, 2] _ _ h1 h2 1⟩

/-- C3: for every engine, the outcome of `propagate` — result and counter
updates alike — is unchanged under deduplication of the fired input and
under any permutation of its order. -/
theorem C3_perm_dedup_invariant (e : Engine) (xs ys : List Nat) :
    e.propagate xs = e.propagate xs.dedup ∧
    (xs.Perm ys → e.propagate xs = e.propagate ys) := by
  constructor
  · exact propagate_mem_congr e xs xs.dedup
      (fun n => (List.mem_dedup).symm)
  · intro hp
    exact propagate_mem_congr e xs ys (fun n => hp.mem_iff)

/-- C3 witness: permutation invariance on the integration-test engine for
the concrete fired lists `[1, 2, 2]` and `[2, 1, 2]`. -/
theorem C3_perm_dedup_invariant_witness :
    ([1, 2, 2] : List Nat).Perm [2, 1, 2] ∧
    (scenarioEngine .perArea).propagate [1, 2, 2] =
      (scenarioEngine .perArea).propagate [2, 1, 2] :=
  ⟨List.Perm.swap 2 1 [2],
   (C3_perm_dedup_invariant (scenarioEngine .perArea) [1, 2, 2]
     [2, 1, 2]).2 (List.Perm.swap 2 1 [2])⟩

/-- C4: synapses whose valid flag is false contribute nothing to any
propagate result; they are nevertheless retained in the built Index, and
flipping the flag back to true makes the synapse contribute again without
rebuilding the Index. -/
theorem C4_invalid_skipped_retained_revalidated (g : Granularity)
    (m : Nat → Option Nat) (fired : List Nat) (key : Nat) :
    (∀ table : List Synapse,
      propagateResult ⟨table⟩ g m fired key =
        propagateResult ⟨table.filter (fun s => s.valid)⟩ g m fired key) ∧
    (∀ (s t w c : List Nat) (k : List SynKind) (v : List Bool) (idx : Index),
      build s t w c k v = .ok idx → idx.table.length = s.length) ∧
    (∀ (table : List Synapse) (i : Nat) (h : i < table.length),
      (table.get ⟨i, h⟩).valid = false →
      propagateResult ⟨setValidTable table i true⟩ g m fired key =
        propagateResult ⟨table⟩ g m fired key +
          (if (table.get ⟨i, h⟩).source ∈ fired
           then contribution g m key { table.get ⟨i, h⟩ with valid := true }
           else 0)) := by
  refine ⟨?_, ?_, ?_⟩
  · intro table
    rw [propagateResult_table_flat, propagateResult_table_flat,
      sum_map_filter]
    have hfun : (fun s : Synapse =>
        if s.source ∈ fired then contribution g m key s else 0) =
        (fun s : Synapse =>
          if s.valid = true then
            (if s.source ∈ fired then contribution g m key s else 0)
          else 0) := by
      funext s
      by_cases hv : s.valid = true
      · rw [if_pos hv]
      · rw [if_neg hv]
        by_cases hm : s.source ∈ fired
        · rw [if_pos hm]
          unfold contribution
          rw [if_neg (fun hc => hv hc.1)]
        · rw [if_neg hm]
    rw [hfun]
  · intro s t w c k v idx hb
    unfold build at hb
    split at hb
    · rename_i hsame
      rw [← Except.ok.inj hb]
      exact mkTable_length s t w c k v hsame
    · exact absurd hb (by simp)
  · intro table i h hinvalid
    rw [propagateResult_table_flat, propagateResult_table_flat]
    have hkey := sum_map_setValidTable table i h true
      (fun s : Synapse =>
        if s.source ∈ fired then contribution g m key s else 0)
    simp only at hkey
    have hc : contribution g m key (table.get ⟨i, h⟩) = 0 := by
      unfold contribution
      rw [if_neg
        (fun hcc => by rw [hinvalid] at hcc; exact Bool.false_ne_true hcc.1)]
    have hFrow : (if (table.get ⟨i, h⟩).source ∈ fired
        then contribution g m key (table.get ⟨i, h⟩) else 0) = 0 := by
      by_cases hm : (table.get ⟨i, h⟩).source ∈ fired
      · rw [if_pos hm, hc]
      · rw [if_neg hm]
    have hsrc : ({ table.get ⟨i, h⟩ with valid := true } : Synapse).source =
        (table.get ⟨i, h⟩).source := rfl
    rw [hFrow, add_zero, hsrc] at hkey
    exact hkey

/-- C4 witness: re-validating the single invalid synapse of a one-row table
restores its contribution for fired set `[1]` at neuron key 10. -/
theorem C4_invalid_witness :
    (([⟨1, 10, 255, 255, .excitatory, false⟩] : List Synapse).get
        ⟨0, Nat.one_pos⟩).valid = false ∧
    propagateResult
        ⟨setValidTable [⟨1, 10, 255, 255, .excitatory, false⟩] 0 true⟩
        .perNeuron scenarioMap [1] 10 =
      propagateResult ⟨[⟨1, 10, 255, 255, .excitatory, false⟩]⟩ .perNeuron
          scenarioMap [1] 10 +
        (if (([⟨1, 10, 255, 255, .excitatory, false⟩] : List Synapse).get
            ⟨0, Nat.one_pos⟩).source ∈ [1]
         then contribution .perNeuron scenarioMap 10
           { ([⟨1, 10, 255, 255, .excitatory, false⟩] : List Synapse).get
               ⟨0, Nat.one_pos⟩ with valid := true }
         else 0) :=
  ⟨rfl,
   (C4_invalid_skipped_retained_revalidated .perNeuron scenarioMap [1]
       10).2.2 [⟨1, 10, 255, 255, .excitatory, false⟩] 0 Nat.one_pos rfl⟩

/-- C5: `build_index` with six sequences of unequal length fails with
`DimensionMismatch` and constructs no Index (the engine value is untouched),
while a build with all sequences of length zero succeeds and yields an
engine whose every propagate call returns an empty (all-zero) result. -/
theorem C5_dimension_mismatch_and_empty_build (e : Engine)
    (s t w c : List Nat) (k : List SynKind) (v : List Bool) :
    (¬ sameLengths s t w c k v →
      e.build_index s t w c k v = .error .DimensionMismatch) ∧
    (∃ e', e.build_index [] [] [] [] [] [] = .ok e' ∧
      ∀ fired key, resultOf (e'.propagate fired) key = some 0) := by
  constructor
  · intro hne
    unfold Engine.build_index build
    rw [if_neg hne]
  · refine ⟨{ e with index := some ⟨[]⟩ }, ?_, ?_⟩
    · rfl
    · intro fired key
      show some (propagateResult ⟨[]⟩ e.granularity e.mapping fired key) =
        some 0
      have hz : propagateResult ⟨[]⟩ e.granularity e.mapping fired key = 0 := by
        unfold propagateResult Index.outgoing
        refine List.sum_eq_zero ?_
        intro x hx
        rcases List.mem_map.mp hx with ⟨src, _, hsrc⟩
        simp at hsrc
        exact hsrc.symm
      rw [hz]

/-- C5 witness: the mismatched build `[1]` versus five empty sequences
fails with `DimensionMismatch` on a fresh engine. -/
theorem C5_dimension_mismatch_witness :
    ¬ sameLengths [1] [] [] [] [] [] ∧
    (Engine.new .perArea).build_index [1] [] [] [] [] [] =
      .error .DimensionMismatch :=
  ⟨by decide,
   (C5_dimension_mismatch_and_empty_build (Engine.new .perArea)
       [1] [] [] [] [] []).1 (by decide)⟩

/-- C6: `propagate` fails with `IndexNotBuilt` exactly when no Index has
been built; with a built Index it never fails, whatever ids the fired set
contains — unknown ids, synapse-less ids and unmapped targets are handled
by omission and a complete result is returned. -/
theorem C6_index_not_built_iff (e : Engine) (fired : List Nat) :
    (e.propagate fired = .error .IndexNotBuilt ↔ e.index = none) ∧
    (∀ err, e.propagate fired = .error err → err = .IndexNotBuilt) ∧
    (e.index = none ∨ ∃ r e', e.propagate fired = .ok (r, e')) := by
  obtain ⟨oidx, m, g, tp, tv⟩ := e
  cases oidx with
  | none =>
      exact ⟨⟨fun _ => rfl, fun _ => rfl⟩,
        fun err herr => (Except.error.inj herr).symm, Or.inl rfl⟩
  | some idx =>
      refine ⟨⟨fun herr => ?_, fun hnone => ?_⟩, fun err herr => ?_,
        Or.inr ⟨_, _, rfl⟩⟩
      · exact absurd herr (by simp [Engine.propagate])
      · exact absurd hnone (by simp)
      · exact absurd herr (by simp [Engine.propagate])

/-- C6 witness: a fresh engine fails with `IndexNotBuilt`, and the built
integration-test engine succeeds on a fired set with an unknown id. -/
theorem C6_index_not_built_witness :
    ((Engine.new .perArea).propagate [7] = .error .IndexNotBuilt ↔
      (Engine.new .perArea).index = none) ∧
    (∃ r e', (scenarioEngine .perArea).propagate [7, 999] = .ok (r, e')) :=
  ⟨(C6_index_not_built_iff (Engine.new .perArea) [7]).1,
   Or.resolve_left
     ((C6_index_not_built_iff (scenarioEngine .perArea) [7, 999]).2.2)
     (by rw [scenarioEngine_eq]; simp)⟩

/-- C7: across every sequence of propagate calls on a built engine, both
counters are monotonically non-decreasing; after `k` calls
`total_propagations` has grown by exactly `k` and `total_synapses_visited`
by exactly the sum over the calls of the valid synapses traversed; no
counter is reset. -/
theorem C7_stats_exact_and_monotone (e : Engine) (idx : Index)
    (fs : List (List Nat)) (hidx : e.index = some idx) :
    (runCalls e fs).stats.1 = e.stats.1 + fs.length ∧
    (runCalls e fs).stats.2 = e.stats.2 + (fs.map (visitedCount idx)).sum ∧
    (∀ p q, fs = p ++ q →
      (runCalls e p).stats.1 ≤ (runCalls e fs).stats.1 ∧
      (runCalls e p).stats.2 ≤ (runCalls e fs).stats.2) := by
  obtain ⟨_, hp, hs⟩ := runCalls_stats fs e idx hidx
  refine ⟨hp, hs, ?_⟩
  intro p q hpq
  subst hpq
  obtain ⟨hip, _, _⟩ := runCalls_stats p e idx hidx
  obtain ⟨_, hpq2, hsq2⟩ := runCalls_stats q (runCalls e p) idx hip
  rw [runCalls_append]
  constructor
  · show (runCalls e p).total_propagations ≤
      (runCalls (runCalls e p) q).total_propagations
    rw [hpq2]
    exact Nat.le_add_right _ _
  · show (runCalls e p).total_synapses_visited ≤
      (runCalls (runCalls e p) q).total_synapses_visited
    rw [hsq2]
    exact Nat.le_add_right _ _

/-- C7 witness: two calls on the built integration-test engine bump
`total_propagations` by exactly two. -/
theorem C7_stats_witness :
    (scenarioEngine .perArea).index = some scenarioIndex ∧
    (runCalls (scenarioEngine .perArea) [[1, 2], [3]]).stats.1 =
      (scenarioEngine .perArea).stats.1 + 2 := by
  have h : (scenarioEngine .perArea).index = some scenarioIndex := by
    rw [scenarioEngine_eq]
  exact ⟨h,
    (C7_stats_exact_and_monotone (scenarioEngine .perArea) scenarioIndex
        [[1, 2], [3]] h).1⟩

/-- C8: a reached target present in the Index but absent from the
Neuron-Area Map raises no error; its contribution appears in the result in
per-neuron granularity but is dropped from area-level aggregation in
per-area granularity. -/
theorem C8_unmapped_target_policy (table : List Synapse)
    (m : Nat → Option Nat) (fired : List Nat) (e : Engine) (t : Nat)
    (hunmapped : m t = none) :
    ((∃ idx, e.index = some idx) →
      ∃ r e', e.propagate fired = .ok (r, e')) ∧
    (∀ key, propagateResult ⟨table⟩ .perArea m fired key =
      propagateResult ⟨table.filter (fun s => (m s.target).isSome)⟩ .perArea
        m fired key) ∧
    (propagateResult ⟨table⟩ .perNeuron m fired t =
      (table.map (fun s =>
        if s.source ∈ fired ∧ s.valid = true ∧ s.target = t
        then magnitude s else 0)).sum) := by
  refine ⟨?_, ?_, ?_⟩
  · rintro ⟨idx, hidx⟩
    obtain ⟨oidx, em, eg, tp, tv⟩ := e
    simp only at hidx
    subst hidx
    exact ⟨_, _, rfl⟩
  · intro key
    rw [propagateResult_table_flat, propagateResult_table_flat,
      sum_map_filter]
    have hfun : (fun s : Synapse =>
        if s.source ∈ fired then contribution .perArea m key s else 0) =
        (fun s : Synapse =>
          if (m s.target).isSome = true then
            (if s.source ∈ fired then contribution .perArea m key s else 0)
          else 0) := by
      funext s
      by_cases hm : (m s.target).isSome = true
      · rw [if_pos hm]
      · rw [if_neg hm]
        have hnone : m s.target = none := Option.not_isSome_iff_eq_none.mp hm
        have hkz : keyOf .perArea m s.target = none := hnone
        have hcz : contribution .perArea m key s = 0 := by
          unfold contribution
          rw [if_neg (fun hc => by rw [hkz] at hc; cases hc.2)]
        by_cases hmem : s.source ∈ fired
        · rw [if_pos hmem, hcz]
        · rw [if_neg hmem]
    rw [hfun]
  · rw [propagateResult_table_flat]
    have hfun : (fun s : Synapse =>
        if s.source ∈ fired then contribution .perNeuron m t s else 0) =
        (fun s : Synapse =>
          if s.source ∈ fired ∧ s.valid = true ∧ s.target = t
          then magnitude s else 0) := by
      funext s
      unfold contribution keyOf
      by_cases h1 : s.source ∈ fired
      · by_cases h2 : s.valid = true
        · by_cases h3 : s.target = t
          · simp [h1, h2, h3]
          · simp [h1, h2, h3]
        · simp [h1, h2]
      · simp [h1]
    rw [hfun]

/-- C8 witness: target 99 is unmapped; on a one-synapse table its
contribution is counted at neuron key 99 in per-neuron mode, and the built
integration-test engine raises no error. -/
theorem C8_unmapped_target_witness :
    scenarioMap 99 = none ∧
    (∃ r e', (scenarioEngine .perArea).propagate [1] = .ok (r, e')) ∧
    propagateResult ⟨[⟨1, 99, 255, 255, .excitatory, true⟩]⟩ .perNeuron
        scenarioMap [1] 99 =
      ([(⟨1, 99, 255, 255, .excitatory, true⟩ : Synapse)].map (fun s =>
        if s.source ∈ [1] ∧ s.valid = true ∧ s.target = 99
        then magnitude s else 0)).sum := by
  have hm : scenarioMap 99 = none := by decide
  refine ⟨hm, ?_, ?_⟩
  · exact (C8_unmapped_target_policy [⟨1, 99, 255, 255, .excitatory, true⟩]
      scenarioMap [1] (scenarioEngine .perArea) 99 hm).1
      ⟨scenarioIndex, by rw [scenarioEngine_eq]⟩
  · exact (C8_unmapped_target_policy [⟨1, 99, 255, 255, .excitatory, true⟩]
      scenarioMap [1] (scenarioEngine .perArea) 99 hm).2.2

/-- C9: `inject_to_fcl` on a queue holding the list `fcl` leaves the queue
holding exactly `fcl` followed by the elements of `fire_list` in their
original order, with exactly one list put back on the queue. -/
theorem C9_inject_to_fcl_appends {α : Type} (fcl fire_list : List α) :
    inject_to_fcl fire_list [fcl] = some [fcl ++ fire_list] := by
  unfold inject_to_fcl queueGet queuePut
  simp [foldl_append_eq]

/-- C10: for every rectangular image, odd kernel size and seed coordinates
(at or beyond the border included), `image_read_by_block` returns a
`kernel_size × kernel_size` array whose out-of-bounds cells are 0 and whose
in-bounds cells equal the image pixel at the corresponding position; no
out-of-bounds index is ever read (the fallible reads all succeed). -/
theorem C10_image_read_by_block_safe (image : List (List Int))
    (cols kernel_size : Nat) (x y : Int)
    (hodd : kernel_size % 2 = 1)
    (hrect : ∀ row ∈ image, row.length = cols) :
    image_read_by_block image kernel_size x y =
      some ((List.range kernel_size).map (fun (a : Nat) =>
        (List.range kernel_size).map (fun (b : Nat) =>
          if 0 ≤ x - (kernel_size / 2 : Nat) + (a : Int) ∧
              0 ≤ y - (kernel_size / 2 : Nat) + (b : Int) ∧
              x - (kernel_size / 2 : Nat) + (a : Int) < (image.length : Int) ∧
              y - (kernel_size / 2 : Nat) + (b : Int) < (cols : Int)
          then pixelAt image (x - (kernel_size / 2 : Nat) + (a : Int))
            (y - (kernel_size / 2 : Nat) + (b : Int))
          else 0))) := by
  unfold image_read_by_block
  rw [if_neg (by omega : ¬kernel_size % 2 = 0)]
  refine optionMapList_eq_map _ _ _ ?_
  intro a _
  refine optionMapList_eq_map _ _ _ ?_
  intro b _
  exact cellRead_eq image cols kernel_size x y a b hrect

/-- C10 witness: the 3×3 block at seed `(0, 0)` of the 2×2 image
`[[1, 2], [3, 4]]` is read without failure, zero-padded at the border. -/
theorem C10_image_read_by_block_witness :
    (3 % 2 = 1) ∧
    (∀ row ∈ ([[1, 2], [3, 4]] : List (List Int)), row.length = 2) ∧
    image_read_by_block [[1, 2], [3, 4]] 3 0 0 =
      some [[0, 0, 0], [0, 1, 2], [0, 3, 4]] ∧
    (∃ M, image_read_by_block [[1, 2], [3, 4]] 3 0 0 = some M) :=
  ⟨by decide, by decide, by decide,
   ⟨_, C10_image_read_by_block_safe [[1, 2], [3, 4]] 2 3 0 0 (by decide)
     (by decide)⟩⟩

end Feagi
